import Mathlib

/-!
Verification of the KFParticleBaseSIMD Kalman-filter particle combination
engine (KFParticle repository, `src/KFParticle/KFParticleBaseSIMD.h`).

The repository ships only the class header: the data members, the triangular
covariance index map `IJ`, the inline id-bookkeeping methods and all method
signatures are source code; the bodies of the Kalman routines are not in the
repository, so those routines are modelled from the specification (each such
definition carries a doc comment starting with `Modelled from the spec:`).

Numbers are modelled by exact rationals (`ℚ`): the floating-point `float_v`
lanes are data-parallel copies of one scalar algorithm (spec §5 declares the
width-1 scalar implementation semantically equivalent), and the algebraic
claims under test are about the ideal arithmetic the code implements.
-/

namespace KFP

open Matrix

/-- Triangular index map of the 36-entry lower-triangle covariance storage,
from the header:
`static Int_t IJ( Int_t i, Int_t j ){ return ( j<=i ) ? i*(i+1)/2+j : j*(j+1)/2+i; }`.
The class only applies it to indices 0..7, where C `int` arithmetic and `ℕ`
arithmetic coincide. -/
def IJ (i j : ℕ) : ℕ :=
  if j ≤ i then i * (i + 1) / 2 + j else j * (j + 1) / 2 + i

/-- `IJ` lands inside the 36-entry array for all indices 0..7. -/
theorem IJ_lt : ∀ i j : Fin 8, IJ i.val j.val < 36 := by decide

/-- `IJ` as a total map into the index type of the storage array. -/
def IJf (i j : Fin 8) : Fin 36 := ⟨IJ i.val j.val, IJ_lt i j⟩

/-- Row recovered from a flat triangular index (table of the triangular
numbers 1, 3, 6, 10, 15, 21, 28, 36). -/
def triRow (k : ℕ) : ℕ :=
  if k < 1 then 0 else if k < 3 then 1 else if k < 6 then 2
  else if k < 10 then 3 else if k < 15 then 4 else if k < 21 then 5
  else if k < 28 then 6 else 7

/-- Column recovered from a flat triangular index. -/
def triCol (k : ℕ) : ℕ := k - triRow k * (triRow k + 1) / 2

theorem triRow_lt : ∀ k : Fin 36, triRow k.val < 8 := by decide

theorem triCol_lt : ∀ k : Fin 36, triCol k.val < 8 := by decide

/-- Inverse of the triangular index map: the (row, column) pair, row ≥ column,
stored at flat position `k`. -/
def pairOf (k : Fin 36) : Fin 8 × Fin 8 :=
  (⟨triRow k.val, triRow_lt k⟩, ⟨triCol k.val, triCol_lt k⟩)

theorem IJf_comm (i j : Fin 8) : IJf i j = IJf j i := by revert i j; decide

theorem IJf_pairOf (k : Fin 36) : IJf (pairOf k).1 (pairOf k).2 = k := by
  revert k; decide

theorem pairOf_IJf (i j : Fin 8) :
    pairOf (IJf i j) = (i, j) ∨ pairOf (IJf i j) = (j, i) := by
  revert i j; decide

/-- Model of the `std::vector<int_v>` daughter-id container: the abstract
element sequence together with its reserved capacity, so that capacity-only
operations (`reserve`) are distinguishable from content changes. -/
structure IntVec where
  data : List ℤ
  cap : ℕ
  deriving DecidableEq

/-- `std::vector::reserve`: grows the capacity, never touches the contents. -/
def IntVec.reserve (v : IntVec) (n : ℕ) : IntVec :=
  { data := v.data, cap := max v.cap n }

/-- `std::vector::push_back`: appends one element (growing capacity if needed). -/
def IntVec.push (v : IntVec) (x : ℤ) : IntVec :=
  { data := v.data ++ [x], cap := max v.cap (v.data.length + 1) }

/-- The particle state of `KFParticleBaseSIMD` (header data members): the
8-parameter vector `fP = {X,Y,Z,Px,Py,Pz,E,S}`, the 36-entry lower-triangle
covariance `fC`, charge `fQ`, degrees of freedom `fNDF`, `fChi2`, the vertex
linearization guess `fVtxGuess`, mass bookkeeping, the particle id and the
daughter-id list, and the construction-method selector. -/
structure PState where
  fP : Fin 8 → ℚ
  fC : Fin 36 → ℚ
  fQ : ℚ
  fNDF : ℤ
  fChi2 : ℚ
  fVtxGuess : Fin 3 → ℚ
  SumDaughterMass : ℚ
  fMassHypo : ℚ
  fId : ℤ
  fDaughterIds : IntVec
  fConstructMethod : ℤ

/-- `float_v GetParameter( Int_t i ) const { return fP[i]; }` -/
def PState.GetParameter (s : PState) (i : Fin 8) : ℚ := s.fP i

/-- `float_v GetCovariance( Int_t i, Int_t j ) const { return fC[IJ(i,j)]; }` -/
def PState.GetCovariance (s : PState) (i j : Fin 8) : ℚ := s.fC (IJf i j)

/-- `float_v & Cij( Int_t i, Int_t j ){ return fC[IJ(i,j)]; }` (read view). -/
def PState.Cij (s : PState) (i j : Fin 8) : ℚ := s.fC (IJf i j)

/-- `int NDaughters() const { return fDaughterIds.size(); }` -/
def PState.NDaughters (s : PState) : ℕ := s.fDaughterIds.data.length

/-- `void SetNDaughters( int n ) { fDaughterIds.reserve(n); }` -/
def PState.SetNDaughters (s : PState) (n : ℕ) : PState :=
  { s with fDaughterIds := s.fDaughterIds.reserve n }

/-- `void AddDaughterId( int_v id ){ fDaughterIds.push_back(id); }` -/
def PState.AddDaughterId (s : PState) (id : ℤ) : PState :=
  { s with fDaughterIds := s.fDaughterIds.push id }

/-- `int_v GetDaughterId(int iD) const { return fDaughterIds[iD]; }` (reads
out of the stored list; modelled totally with a default). -/
def PState.GetDaughterId (s : PState) (iD : ℕ) : ℤ :=
  s.fDaughterIds.data.getD iD 0

/-- The full symmetric 8×8 covariance matrix encoded by the triangular
storage: entry (i,j) is `fC[IJ(i,j)]`, exactly as every covariance accessor
reads it. -/
def covMatrixOf (c : Fin 36 → ℚ) : Matrix (Fin 8) (Fin 8) ℚ :=
  Matrix.of fun i j => c (IJf i j)

/-- The covariance matrix of a particle state. -/
def PState.covMatrix (s : PState) : Matrix (Fin 8) (Fin 8) ℚ :=
  covMatrixOf s.fC

/-- Write a (symmetric) 8×8 matrix back into the 36-entry triangular storage. -/
def writeTri (M : Matrix (Fin 8) (Fin 8) ℚ) : Fin 36 → ℚ :=
  fun k => M (pairOf k).1 (pairOf k).2

theorem covMatrixOf_transpose (c : Fin 36 → ℚ) :
    (covMatrixOf c)ᵀ = covMatrixOf c := by
  ext i j
  simp only [Matrix.transpose_apply, covMatrixOf, Matrix.of_apply]
  rw [IJf_comm]

theorem writeTri_covMatrixOf (c : Fin 36 → ℚ) :
    writeTri (covMatrixOf c) = c := by
  funext k
  simp only [writeTri, covMatrixOf, Matrix.of_apply, IJf_pairOf]

theorem covMatrixOf_writeTri {M : Matrix (Fin 8) (Fin 8) ℚ} (h : Mᵀ = M) :
    covMatrixOf (writeTri M) = M := by
  ext i j
  simp only [covMatrixOf, Matrix.of_apply, writeTri]
  rcases pairOf_IJf i j with hp | hp
  · rw [hp]
  · rw [hp]
    calc M j i = Mᵀ i j := rfl
    _ = M i j := by rw [h]

/-! ### Generic linear Kalman measurement update

Modelled from the spec (§4.3, KalmanCombiner): "innovation = daughter
measurement − predicted mother state (restricted to shared spatial/momentum
components); innovation covariance = sum of mother and transported-daughter
covariance blocks; gain = mother covariance × shared-block ×
innovation-covariance⁻¹; update state and covariance; chi2 +=
innovationᵗ·innovationCovariance⁻¹·innovation; ndf += a fixed per-daughter
constraint count."  The restriction map is the measurement matrix `H`; the
bodies of `AddDaughter*`/`SubtractFromVertex` are not in the repository. -/

/-- Executable inverse of a square rational matrix: `det⁻¹ • adjugate`.
Coincides with Mathlib's nonsingular inverse on every input. -/
def invQ {k : ℕ} (A : Matrix (Fin k) (Fin k) ℚ) : Matrix (Fin k) (Fin k) ℚ :=
  (A.det)⁻¹ • A.adjugate

theorem invQ_eq_inv {k : ℕ} (A : Matrix (Fin k) (Fin k) ℚ) : invQ A = A⁻¹ := by
  rw [Matrix.inv_def, Ring.inverse_eq_inv]; rfl

theorem invQ_mul_self {k : ℕ} {A : Matrix (Fin k) (Fin k) ℚ}
    (h : IsUnit A.det) : A * invQ A = 1 := by
  rw [invQ_eq_inv]; exact Matrix.mul_nonsing_inv A h

theorem invQ_self_mul {k : ℕ} {A : Matrix (Fin k) (Fin k) ℚ}
    (h : IsUnit A.det) : invQ A * A = 1 := by
  rw [invQ_eq_inv]; exact Matrix.nonsing_inv_mul A h

theorem invQ_eq_of_mul_eq_one {k : ℕ} {A B : Matrix (Fin k) (Fin k) ℚ}
    (h : A * B = 1) : invQ A = B := by
  rw [invQ_eq_inv]; exact Matrix.inv_eq_right_inv h

theorem invQ_transpose {k : ℕ} (A : Matrix (Fin k) (Fin k) ℚ) :
    invQ Aᵀ = (invQ A)ᵀ := by
  rw [invQ_eq_inv, invQ_eq_inv, Matrix.transpose_nonsing_inv]

theorem cancel_left {a b : ℕ} {A B : Matrix (Fin a) (Fin a) ℚ}
    (h : A * B = 1) (X : Matrix (Fin a) (Fin b) ℚ) : A * (B * X) = X := by
  rw [← Matrix.mul_assoc, h, Matrix.one_mul]

/-- The accumulating Kalman fit state: estimate (column vector), covariance,
chi2 and degrees of freedom.  This is the (fP, fC, fChi2, fNDF) fragment of a
particle/vertex state on which the combiner acts. -/
@[ext]
structure KalState (n : ℕ) where
  r : Matrix (Fin n) (Fin 1) ℚ
  C : Matrix (Fin n) (Fin n) ℚ
  chi2 : ℚ
  ndf : ℤ

/-- Modelled from the spec (§4.3 step 2): the linear Kalman measurement
update with measurement matrix `H`, measured value `z`, measurement
covariance `V` and per-measurement ndf increment `k`. -/
def kalmanAdd {n m : ℕ} (H : Matrix (Fin m) (Fin n) ℚ)
    (z : Matrix (Fin m) (Fin 1) ℚ) (V : Matrix (Fin m) (Fin m) ℚ)
    (k : ℤ) (s : KalState n) : KalState n :=
  let S := H * s.C * Hᵀ + V
  let Si := invQ S
  let K := s.C * Hᵀ * Si
  let inn := z - H * s.r
  { r := s.r + K * inn
    C := s.C - K * (H * s.C)
    chi2 := s.chi2 + (innᵀ * Si * inn) 0 0
    ndf := s.ndf + k }

/-- Modelled from the spec (§4.3): `SubtractFromVertex`/`SubtractFromParticle`
"removes a previously added daughter's contribution from accumulated state,
covariance, chi2, and ndf, by recomputing the same gain/innovation with
inverted information contribution" — i.e. the same update with the
measurement covariance negated and the ndf increment negated. -/
def kalmanSubtract {n m : ℕ} (H : Matrix (Fin m) (Fin n) ℚ)
    (z : Matrix (Fin m) (Fin 1) ℚ) (V : Matrix (Fin m) (Fin m) ℚ)
    (k : ℤ) (s : KalState n) : KalState n :=
  kalmanAdd H z (-V) (-k) s

section KalmanLemmas

variable {n m : ℕ} (H : Matrix (Fin m) (Fin n) ℚ)
  (z : Matrix (Fin m) (Fin 1) ℚ) (V : Matrix (Fin m) (Fin m) ℚ)
  (k : ℤ) (s : KalState n)

theorem kalmanAdd_r :
    (kalmanAdd H z V k s).r =
      s.r + s.C * Hᵀ * invQ (H * s.C * Hᵀ + V) * (z - H * s.r) := rfl

theorem kalmanAdd_C :
    (kalmanAdd H z V k s).C =
      s.C - s.C * Hᵀ * invQ (H * s.C * Hᵀ + V) * (H * s.C) := rfl

theorem kalmanAdd_chi2 :
    (kalmanAdd H z V k s).chi2 =
      s.chi2 + ((z - H * s.r)ᵀ * invQ (H * s.C * Hᵀ + V) * (z - H * s.r)) 0 0 :=
  rfl

theorem kalmanAdd_ndf : (kalmanAdd H z V k s).ndf = s.ndf + k := rfl

/-- Symmetry of the innovation covariance. -/
theorem innov_transpose (hCsym : s.Cᵀ = s.C) (hVsym : Vᵀ = V) :
    (H * s.C * Hᵀ + V)ᵀ = H * s.C * Hᵀ + V := by
  rw [Matrix.transpose_add, Matrix.transpose_mul, Matrix.transpose_mul,
    Matrix.transpose_transpose, hCsym, hVsym, Matrix.mul_assoc]

end KalmanLemmas

/-- Subtracting the very measurement that was just added restores the
state, covariance, chi2 and ndf of the fit exactly (exact arithmetic). -/
theorem kalman_roundtrip {n m : ℕ} (H : Matrix (Fin m) (Fin n) ℚ)
    (z : Matrix (Fin m) (Fin 1) ℚ) (V : Matrix (Fin m) (Fin m) ℚ) (k : ℤ)
    (s : KalState n)
    (hCsym : s.Cᵀ = s.C) (hVsym : Vᵀ = V)
    (hS : IsUnit (H * s.C * Hᵀ + V).det) (hV : IsUnit V.det) :
    kalmanSubtract H z V k (kalmanAdd H z V k s) = s := by
  have h1 : (H * s.C * Hᵀ + V) * invQ (H * s.C * Hᵀ + V) = 1 := invQ_mul_self hS
  have h2 : invQ (H * s.C * Hᵀ + V) * (H * s.C * Hᵀ + V) = 1 := invQ_self_mul hS
  have h3 : V * invQ V = 1 := invQ_mul_self hV
  have h4 : invQ V * V = 1 := invQ_self_mul hV
  have hSsym : (H * s.C * Hᵀ + V)ᵀ = H * s.C * Hᵀ + V := innov_transpose H V s hCsym hVsym
  have hSisym : (invQ (H * s.C * Hᵀ + V))ᵀ = invQ (H * s.C * Hᵀ + V) := by
    rw [← invQ_transpose, hSsym]
  set S := H * s.C * Hᵀ + V with hS0
  set Si := invQ S with hSi0
  set Vi := invQ V with hVi0
  have hG2 : H * (s.C * Hᵀ) = S - V := by
    rw [hS0, add_sub_cancel_right, Matrix.mul_assoc]
  have hGX : ∀ (p : ℕ) (X : Matrix (Fin m) (Fin p) ℚ),
      H * (s.C * (Hᵀ * X)) = S * X - V * X := by
    intro p X
    rw [hS0, ← Matrix.sub_mul, add_sub_cancel_right]
    simp only [Matrix.mul_assoc]
  have hC1Ht : (s.C - s.C * Hᵀ * Si * (H * s.C)) * Hᵀ = s.C * (Hᵀ * (Si * V)) := by
    rw [Matrix.sub_mul]
    simp only [Matrix.mul_assoc]
    rw [hG2, Matrix.mul_sub, h2, Matrix.mul_sub, Matrix.mul_one, Matrix.mul_sub]
    abel
  have hHC1 : H * (s.C - s.C * Hᵀ * Si * (H * s.C)) = V * (Si * (H * s.C)) := by
    rw [Matrix.mul_sub]
    simp only [Matrix.mul_assoc]
    rw [hGX, cancel_left h1]
    abel
  have hSsub : H * (s.C - s.C * Hᵀ * Si * (H * s.C)) * Hᵀ + -V = -(V * (Si * V)) := by
    rw [Matrix.mul_assoc, hC1Ht, hGX, cancel_left h1]
    abel
  have hsub : invQ (H * (s.C - s.C * Hᵀ * Si * (H * s.C)) * Hᵀ + -V) = -(Vi * (S * Vi)) := by
    apply invQ_eq_of_mul_eq_one
    rw [hSsub, Matrix.neg_mul, Matrix.mul_neg, neg_neg]
    simp only [Matrix.mul_assoc]
    rw [cancel_left h3, cancel_left h2]
    exact h3
  have hw1 : z - H * (s.r + s.C * Hᵀ * Si * (z - H * s.r)) =
      V * (Si * (z - H * s.r)) := by
    rw [Matrix.mul_add]
    simp only [Matrix.mul_assoc]
    rw [hGX, cancel_left h1]
    abel
  show kalmanAdd H z (-V) (-k) (kalmanAdd H z V k s) = s
  refine KalState.ext ?_ ?_ ?_ ?_
  · -- state estimate restored
    simp only [kalmanAdd_r, kalmanAdd_C]
    rw [← hS0, ← hSi0, hw1, hsub, hC1Ht]
    simp only [Matrix.mul_neg, Matrix.neg_mul, Matrix.mul_assoc]
    rw [cancel_left h3, cancel_left h2, cancel_left h4]
    abel
  · -- covariance restored
    simp only [kalmanAdd_r, kalmanAdd_C]
    rw [← hS0, ← hSi0, hsub, hC1Ht, hHC1]
    simp only [Matrix.mul_neg, Matrix.neg_mul, Matrix.mul_assoc]
    rw [cancel_left h3, cancel_left h2, cancel_left h4]
    abel
  · -- chi2 restored
    simp only [kalmanAdd_chi2, kalmanAdd_r, kalmanAdd_C]
    rw [← hS0, ← hSi0, hw1, hsub, Matrix.transpose_mul, Matrix.transpose_mul,
      hSisym, hVsym]
    simp only [Matrix.mul_neg, Matrix.neg_mul, Matrix.mul_assoc]
    rw [cancel_left h3, cancel_left h2, cancel_left h4]
    simp only [Matrix.neg_apply]
    ring
  · -- ndf restored
    simp only [kalmanAdd_ndf]
    omega

/-- The Kalman update preserves symmetry of the covariance. -/
theorem kalmanAdd_C_transpose {n m : ℕ} (H : Matrix (Fin m) (Fin n) ℚ)
    (z : Matrix (Fin m) (Fin 1) ℚ) (V : Matrix (Fin m) (Fin m) ℚ) (k : ℤ)
    (s : KalState n) (hCsym : s.Cᵀ = s.C) (hVsym : Vᵀ = V) :
    (kalmanAdd H z V k s).Cᵀ = (kalmanAdd H z V k s).C := by
  have hSisym : (invQ (H * s.C * Hᵀ + V))ᵀ = invQ (H * s.C * Hᵀ + V) := by
    rw [← invQ_transpose, innov_transpose H V s hCsym hVsym]
  rw [kalmanAdd_C, Matrix.transpose_sub]
  simp only [Matrix.transpose_mul, Matrix.transpose_transpose, hSisym, hCsym]
  simp only [Matrix.mul_assoc]

/-- Information form of the updated covariance: the updated covariance is a
right inverse of the summed information matrix. -/
theorem kalmanAdd_C_mul_info {n m : ℕ} (H : Matrix (Fin m) (Fin n) ℚ)
    (z : Matrix (Fin m) (Fin 1) ℚ) (V : Matrix (Fin m) (Fin m) ℚ) (k : ℤ)
    (s : KalState n) (hC : IsUnit s.C.det) (hV : IsUnit V.det)
    (hS : IsUnit (H * s.C * Hᵀ + V).det) :
    (kalmanAdd H z V k s).C * (invQ s.C + Hᵀ * invQ V * H) = 1 := by
  have h1 : (H * s.C * Hᵀ + V) * invQ (H * s.C * Hᵀ + V) = 1 := invQ_mul_self hS
  have h2 : invQ (H * s.C * Hᵀ + V) * (H * s.C * Hᵀ + V) = 1 := invQ_self_mul hS
  have h3 : V * invQ V = 1 := invQ_mul_self hV
  have h5 : s.C * invQ s.C = 1 := invQ_mul_self hC
  rw [kalmanAdd_C]
  set S := H * s.C * Hᵀ + V with hS0
  set Si := invQ S with hSi0
  set Vi := invQ V with hVi0
  set Ci := invQ s.C with hCi0
  have hGX : ∀ (p : ℕ) (X : Matrix (Fin m) (Fin p) ℚ),
      H * (s.C * (Hᵀ * X)) = S * X - V * X := by
    intro p X
    rw [hS0, ← Matrix.sub_mul, add_sub_cancel_right]
    simp only [Matrix.mul_assoc]
  rw [Matrix.sub_mul, Matrix.mul_add, Matrix.mul_add]
  simp only [Matrix.mul_assoc]
  rw [h5, Matrix.mul_one, hGX, Matrix.mul_sub, cancel_left h2, cancel_left h3,
    Matrix.mul_sub, Matrix.mul_sub]
  abel

/-- The determinant of the updated covariance stays invertible. -/
theorem kalmanAdd_C_isUnit {n m : ℕ} (H : Matrix (Fin m) (Fin n) ℚ)
    (z : Matrix (Fin m) (Fin 1) ℚ) (V : Matrix (Fin m) (Fin m) ℚ) (k : ℤ)
    (s : KalState n) (hC : IsUnit s.C.det) (hV : IsUnit V.det)
    (hS : IsUnit (H * s.C * Hᵀ + V).det) :
    IsUnit (kalmanAdd H z V k s).C.det :=
  Matrix.isUnit_det_of_right_inverse (kalmanAdd_C_mul_info H z V k s hC hV hS)

/-- Information form of the updated covariance, inverse form. -/
theorem kalmanAdd_invQ_C {n m : ℕ} (H : Matrix (Fin m) (Fin n) ℚ)
    (z : Matrix (Fin m) (Fin 1) ℚ) (V : Matrix (Fin m) (Fin m) ℚ) (k : ℤ)
    (s : KalState n) (hC : IsUnit s.C.det) (hV : IsUnit V.det)
    (hS : IsUnit (H * s.C * Hᵀ + V).det) :
    invQ (kalmanAdd H z V k s).C = invQ s.C + Hᵀ * invQ V * H :=
  invQ_eq_of_mul_eq_one (kalmanAdd_C_mul_info H z V k s hC hV hS)

/-- Information form of the updated estimate: information matrix times the
updated estimate is the prior information vector plus the measurement
information vector. -/
theorem kalmanAdd_info_r {n m : ℕ} (H : Matrix (Fin m) (Fin n) ℚ)
    (z : Matrix (Fin m) (Fin 1) ℚ) (V : Matrix (Fin m) (Fin m) ℚ) (k : ℤ)
    (s : KalState n) (hC : IsUnit s.C.det) (hV : IsUnit V.det)
    (hS : IsUnit (H * s.C * Hᵀ + V).det) :
    (invQ s.C + Hᵀ * invQ V * H) * (kalmanAdd H z V k s).r =
      invQ s.C * s.r + Hᵀ * (invQ V * z) := by
  have h1 : (H * s.C * Hᵀ + V) * invQ (H * s.C * Hᵀ + V) = 1 := invQ_mul_self hS
  have h4 : invQ V * V = 1 := invQ_self_mul hV
  have h6 : invQ s.C * s.C = 1 := invQ_self_mul hC
  rw [kalmanAdd_r]
  set S := H * s.C * Hᵀ + V with hS0
  set Si := invQ S with hSi0
  set Vi := invQ V with hVi0
  set Ci := invQ s.C with hCi0
  have hGX : ∀ (p : ℕ) (X : Matrix (Fin m) (Fin p) ℚ),
      H * (s.C * (Hᵀ * X)) = S * X - V * X := by
    intro p X
    rw [hS0, ← Matrix.sub_mul, add_sub_cancel_right]
    simp only [Matrix.mul_assoc]
  simp only [Matrix.add_mul, Matrix.mul_add, Matrix.mul_sub, Matrix.sub_mul,
    Matrix.mul_assoc, hGX, cancel_left h1, cancel_left h4, cancel_left h6]
  abel

/-- The chi2 increment in information form: the new chi2 is the old one plus
the prior and measurement quadratic forms minus the posterior quadratic
form.  This makes the order-independence of accumulated chi2 manifest. -/
theorem kalmanAdd_chi2_term {n m : ℕ} (H : Matrix (Fin m) (Fin n) ℚ)
    (z : Matrix (Fin m) (Fin 1) ℚ) (V : Matrix (Fin m) (Fin m) ℚ) (k : ℤ)
    (s : KalState n) (hCsym : s.Cᵀ = s.C) (hVsym : Vᵀ = V)
    (hC : IsUnit s.C.det) (hV : IsUnit V.det)
    (hS : IsUnit (H * s.C * Hᵀ + V).det) :
    (kalmanAdd H z V k s).chi2 =
      s.chi2 + (s.rᵀ * invQ s.C * s.r) 0 0 + (zᵀ * invQ V * z) 0 0
        - ((kalmanAdd H z V k s).rᵀ *
            ((invQ s.C + Hᵀ * invQ V * H) * (kalmanAdd H z V k s).r)) 0 0 := by
  have h1 : (H * s.C * Hᵀ + V) * invQ (H * s.C * Hᵀ + V) = 1 := invQ_mul_self hS
  have h2 : invQ (H * s.C * Hᵀ + V) * (H * s.C * Hᵀ + V) = 1 := invQ_self_mul hS
  have h3 : V * invQ V = 1 := invQ_mul_self hV
  have h5 : s.C * invQ s.C = 1 := invQ_mul_self hC
  have hSisym : (invQ (H * s.C * Hᵀ + V))ᵀ = invQ (H * s.C * Hᵀ + V) := by
    rw [← invQ_transpose, innov_transpose H V s hCsym hVsym]
  have key : (kalmanAdd H z V k s).rᵀ *
      ((invQ s.C + Hᵀ * invQ V * H) * (kalmanAdd H z V k s).r) =
      s.rᵀ * invQ s.C * s.r + zᵀ * invQ V * z
        - (z - H * s.r)ᵀ * invQ (H * s.C * Hᵀ + V) * (z - H * s.r) := by
    rw [kalmanAdd_info_r H z V k s hC hV hS, kalmanAdd_r]
    set S := H * s.C * Hᵀ + V with hS0
    set Si := invQ S with hSi0
    set Vi := invQ V with hVi0
    set Ci := invQ s.C with hCi0
    have hGX : ∀ (p : ℕ) (X : Matrix (Fin m) (Fin p) ℚ),
        H * (s.C * (Hᵀ * X)) = S * X - V * X := by
      intro p X
      rw [hS0, ← Matrix.sub_mul, add_sub_cancel_right]
      simp only [Matrix.mul_assoc]
    simp only [Matrix.transpose_add, Matrix.transpose_sub, Matrix.transpose_mul,
      Matrix.transpose_transpose, hCsym, hSisym]
    simp only [Matrix.add_mul, Matrix.mul_add, Matrix.mul_sub, Matrix.sub_mul,
      Matrix.mul_assoc, hGX, cancel_left h1, cancel_left h2, cancel_left h3,
      cancel_left h5]
    abel
  rw [kalmanAdd_chi2, key, Matrix.sub_apply, Matrix.add_apply]
  ring

/-- Two independent Kalman measurement updates commute: estimate, covariance,
accumulated chi2 and ndf all agree for the two orders. -/
theorem kalmanAdd_comm {n m1 m2 : ℕ}
    (H1 : Matrix (Fin m1) (Fin n) ℚ) (z1 : Matrix (Fin m1) (Fin 1) ℚ)
    (V1 : Matrix (Fin m1) (Fin m1) ℚ) (k1 : ℤ)
    (H2 : Matrix (Fin m2) (Fin n) ℚ) (z2 : Matrix (Fin m2) (Fin 1) ℚ)
    (V2 : Matrix (Fin m2) (Fin m2) ℚ) (k2 : ℤ)
    (s : KalState n)
    (hCsym : s.Cᵀ = s.C) (hV1sym : V1ᵀ = V1) (hV2sym : V2ᵀ = V2)
    (hC : IsUnit s.C.det) (hV1 : IsUnit V1.det) (hV2 : IsUnit V2.det)
    (hS1 : IsUnit (H1 * s.C * H1ᵀ + V1).det)
    (hS2 : IsUnit (H2 * s.C * H2ᵀ + V2).det)
    (hS21 : IsUnit (H2 * (kalmanAdd H1 z1 V1 k1 s).C * H2ᵀ + V2).det)
    (hS12 : IsUnit (H1 * (kalmanAdd H2 z2 V2 k2 s).C * H1ᵀ + V1).det) :
    kalmanAdd H2 z2 V2 k2 (kalmanAdd H1 z1 V1 k1 s) =
      kalmanAdd H1 z1 V1 k1 (kalmanAdd H2 z2 V2 k2 s) := by
  set A1 := kalmanAdd H1 z1 V1 k1 s with hA1def
  set A2 := kalmanAdd H2 z2 V2 k2 s with hA2def
  have hA1sym : A1.Cᵀ = A1.C := kalmanAdd_C_transpose H1 z1 V1 k1 s hCsym hV1sym
  have hA2sym : A2.Cᵀ = A2.C := kalmanAdd_C_transpose H2 z2 V2 k2 s hCsym hV2sym
  have hA1unit : IsUnit A1.C.det := kalmanAdd_C_isUnit H1 z1 V1 k1 s hC hV1 hS1
  have hA2unit : IsUnit A2.C.det := kalmanAdd_C_isUnit H2 z2 V2 k2 s hC hV2 hS2
  have hIA1 : invQ A1.C = invQ s.C + H1ᵀ * invQ V1 * H1 :=
    kalmanAdd_invQ_C H1 z1 V1 k1 s hC hV1 hS1
  have hIA2 : invQ A2.C = invQ s.C + H2ᵀ * invQ V2 * H2 :=
    kalmanAdd_invQ_C H2 z2 V2 k2 s hC hV2 hS2
  have hM0 : invQ s.C + H2ᵀ * invQ V2 * H2 + H1ᵀ * invQ V1 * H1 =
      invQ s.C + H1ᵀ * invQ V1 * H1 + H2ᵀ * invQ V2 * H2 := by abel
  have e21 : (kalmanAdd H2 z2 V2 k2 A1).C *
      (invQ s.C + H1ᵀ * invQ V1 * H1 + H2ᵀ * invQ V2 * H2) = 1 := by
    have h := kalmanAdd_C_mul_info H2 z2 V2 k2 A1 hA1unit hV2 hS21
    rw [hIA1] at h
    exact h
  have e12 : (kalmanAdd H1 z1 V1 k1 A2).C *
      (invQ s.C + H1ᵀ * invQ V1 * H1 + H2ᵀ * invQ V2 * H2) = 1 := by
    have h := kalmanAdd_C_mul_info H1 z1 V1 k1 A2 hA2unit hV1 hS12
    rw [hIA2, hM0] at h
    exact h
  have hCC : (kalmanAdd H2 z2 V2 k2 A1).C = (kalmanAdd H1 z1 V1 k1 A2).C := by
    have h21l : (invQ s.C + H1ᵀ * invQ V1 * H1 + H2ᵀ * invQ V2 * H2) *
        (kalmanAdd H1 z1 V1 k1 A2).C = 1 := Matrix.mul_eq_one_comm.mp e12
    calc (kalmanAdd H2 z2 V2 k2 A1).C
        = (kalmanAdd H2 z2 V2 k2 A1).C *
            ((invQ s.C + H1ᵀ * invQ V1 * H1 + H2ᵀ * invQ V2 * H2) *
              (kalmanAdd H1 z1 V1 k1 A2).C) := by rw [h21l, Matrix.mul_one]
      _ = (kalmanAdd H2 z2 V2 k2 A1).C *
            (invQ s.C + H1ᵀ * invQ V1 * H1 + H2ᵀ * invQ V2 * H2) *
            (kalmanAdd H1 z1 V1 k1 A2).C := by
          rw [Matrix.mul_assoc ((kalmanAdd H2 z2 V2 k2 A1).C)
            (invQ s.C + H1ᵀ * invQ V1 * H1 + H2ᵀ * invQ V2 * H2)
            ((kalmanAdd H1 z1 V1 k1 A2).C)]
      _ = (kalmanAdd H1 z1 V1 k1 A2).C := by rw [e21, Matrix.one_mul]
  have i1 : (invQ s.C + H1ᵀ * invQ V1 * H1) * A1.r =
      invQ s.C * s.r + H1ᵀ * (invQ V1 * z1) := kalmanAdd_info_r H1 z1 V1 k1 s hC hV1 hS1
  have i2 : (invQ s.C + H2ᵀ * invQ V2 * H2) * A2.r =
      invQ s.C * s.r + H2ᵀ * (invQ V2 * z2) := kalmanAdd_info_r H2 z2 V2 k2 s hC hV2 hS2
  have i21 : (invQ A1.C + H2ᵀ * invQ V2 * H2) * (kalmanAdd H2 z2 V2 k2 A1).r =
      invQ A1.C * A1.r + H2ᵀ * (invQ V2 * z2) :=
    kalmanAdd_info_r H2 z2 V2 k2 A1 hA1unit hV2 hS21
  have i12 : (invQ A2.C + H1ᵀ * invQ V1 * H1) * (kalmanAdd H1 z1 V1 k1 A2).r =
      invQ A2.C * A2.r + H1ᵀ * (invQ V1 * z1) :=
    kalmanAdd_info_r H1 z1 V1 k1 A2 hA2unit hV1 hS12
  rw [hIA1, i1] at i21
  rw [hIA2, i2] at i12
  have hrsame : (invQ s.C + H1ᵀ * invQ V1 * H1 + H2ᵀ * invQ V2 * H2) *
      (kalmanAdd H2 z2 V2 k2 A1).r =
      (invQ s.C + H1ᵀ * invQ V1 * H1 + H2ᵀ * invQ V2 * H2) *
        (kalmanAdd H1 z1 V1 k1 A2).r := by
    rw [i21, ← hM0, i12]
    abel
  have hrr : (kalmanAdd H2 z2 V2 k2 A1).r = (kalmanAdd H1 z1 V1 k1 A2).r := by
    calc (kalmanAdd H2 z2 V2 k2 A1).r
        = (kalmanAdd H1 z1 V1 k1 A2).C *
            (invQ s.C + H1ᵀ * invQ V1 * H1 + H2ᵀ * invQ V2 * H2) *
            (kalmanAdd H2 z2 V2 k2 A1).r := by rw [e12, Matrix.one_mul]
      _ = (kalmanAdd H1 z1 V1 k1 A2).C *
            ((invQ s.C + H1ᵀ * invQ V1 * H1 + H2ᵀ * invQ V2 * H2) *
              (kalmanAdd H2 z2 V2 k2 A1).r) := by
          rw [Matrix.mul_assoc ((kalmanAdd H1 z1 V1 k1 A2).C)
            (invQ s.C + H1ᵀ * invQ V1 * H1 + H2ᵀ * invQ V2 * H2)
            ((kalmanAdd H2 z2 V2 k2 A1).r)]
      _ = (kalmanAdd H1 z1 V1 k1 A2).C *
            ((invQ s.C + H1ᵀ * invQ V1 * H1 + H2ᵀ * invQ V2 * H2) *
              (kalmanAdd H1 z1 V1 k1 A2).r) := by rw [hrsame]
      _ = (kalmanAdd H1 z1 V1 k1 A2).C *
            (invQ s.C + H1ᵀ * invQ V1 * H1 + H2ᵀ * invQ V2 * H2) *
            (kalmanAdd H1 z1 V1 k1 A2).r := by
          rw [Matrix.mul_assoc ((kalmanAdd H1 z1 V1 k1 A2).C)
            (invQ s.C + H1ᵀ * invQ V1 * H1 + H2ᵀ * invQ V2 * H2)
            ((kalmanAdd H1 z1 V1 k1 A2).r)]
      _ = (kalmanAdd H1 z1 V1 k1 A2).r := by rw [e12, Matrix.one_mul]
  have c1 : A1.chi2 = s.chi2 + (s.rᵀ * invQ s.C * s.r) 0 0 + (z1ᵀ * invQ V1 * z1) 0 0
      - (A1.rᵀ * ((invQ s.C + H1ᵀ * invQ V1 * H1) * A1.r)) 0 0 :=
    kalmanAdd_chi2_term H1 z1 V1 k1 s hCsym hV1sym hC hV1 hS1
  have c2 : A2.chi2 = s.chi2 + (s.rᵀ * invQ s.C * s.r) 0 0 + (z2ᵀ * invQ V2 * z2) 0 0
      - (A2.rᵀ * ((invQ s.C + H2ᵀ * invQ V2 * H2) * A2.r)) 0 0 :=
    kalmanAdd_chi2_term H2 z2 V2 k2 s hCsym hV2sym hC hV2 hS2
  have c21 := kalmanAdd_chi2_term H2 z2 V2 k2 A1 hA1sym hV2sym hA1unit hV2 hS21
  have c12 := kalmanAdd_chi2_term H1 z1 V1 k1 A2 hA2sym hV1sym hA2unit hV1 hS12
  rw [hIA1] at c21
  rw [hIA2] at c12
  have hchi : (kalmanAdd H2 z2 V2 k2 A1).chi2 = (kalmanAdd H1 z1 V1 k1 A2).chi2 := by
    rw [c21, c12, c1, c2]
    have hE : ((kalmanAdd H2 z2 V2 k2 A1).rᵀ *
        ((invQ s.C + H1ᵀ * invQ V1 * H1 + H2ᵀ * invQ V2 * H2) *
          (kalmanAdd H2 z2 V2 k2 A1).r)) 0 0 =
        ((kalmanAdd H1 z1 V1 k1 A2).rᵀ *
          ((invQ s.C + H2ᵀ * invQ V2 * H2 + H1ᵀ * invQ V1 * H1) *
            (kalmanAdd H1 z1 V1 k1 A2).r)) 0 0 := by
      rw [hrr, hM0]
    simp only [Matrix.mul_assoc] at hE ⊢
    rw [hE]
    ring
  have hndf : (kalmanAdd H2 z2 V2 k2 A1).ndf = (kalmanAdd H1 z1 V1 k1 A2).ndf := by
    simp only [kalmanAdd_ndf, hA1def, hA2def]
    omega
  exact KalState.ext hrr hCC hchi hndf

/-! ### The particle-level combiner -/

/-- The measurement matrix selecting the three spatial components (x, y, z)
out of the 8-parameter state: the "shared spatial components" restriction of
spec §4.3. -/
def Hpos : Matrix (Fin 3) (Fin 8) ℚ :=
  Matrix.of fun i j => if (j : ℕ) = (i : ℕ) then 1 else 0

/-- View of the 8-parameter vector as a column matrix. -/
def colVec (f : Fin 8 → ℚ) : Matrix (Fin 8) (Fin 1) ℚ :=
  Matrix.of fun i _ => f i

/-- The Kalman-filter fragment (fP, fC, fChi2, fNDF) of a particle state. -/
def toKal (s : PState) : KalState 8 :=
  { r := colVec s.fP, C := s.covMatrix, chi2 := s.fChi2, ndf := s.fNDF }

/-- Modelled from the spec (§4.1b, §4.2): straight-line transport Jacobian in
the S = path/momentum parametrisation — position advances by momentum times
dS, all other parameters are unchanged. -/
def lineJac (dS : ℚ) : Matrix (Fin 8) (Fin 8) ℚ :=
  Matrix.of fun i j =>
    if j = i then 1 else if (j : ℕ) = (i : ℕ) + 3 ∧ (i : ℕ) < 3 then dS else 0

/-- Modelled from the spec (§4.2 PointDistanceParam, straight-line regime):
the transport parameter of closest approach of the straight-line trajectory
to a fixed point, with the near-zero-momentum denominator guarded. -/
def lineDS (d : PState) (xyz : Fin 3 → ℚ) : ℚ :=
  let p2 := d.fP 3 ^ 2 + d.fP 4 ^ 2 + d.fP 5 ^ 2
  if p2 = 0 then 0
  else ((xyz 0 - d.fP 0) * d.fP 3 + (xyz 1 - d.fP 1) * d.fP 4 +
    (xyz 2 - d.fP 2) * d.fP 5) / p2

/-- Modelled from the spec (`GetMeasurement` declaration, §4.3): the spatial
measurement vector a daughter contributes, after straight-line transport to
the vertex guess unless `isAtVtxGuess` says the daughter is already there. -/
def measZ (d : PState) (xyz : Fin 3 → ℚ) (isAtVtxGuess : Bool) :
    Matrix (Fin 3) (Fin 1) ℚ :=
  Hpos * (lineJac (if isAtVtxGuess then 0 else lineDS d xyz) * colVec d.fP)

/-- Modelled from the spec (`GetMeasurement` declaration, §4.3): the spatial
covariance block the daughter contributes, transported as J·C·Jᵗ (§4.1). -/
def measV (d : PState) (xyz : Fin 3 → ℚ) (isAtVtxGuess : Bool) :
    Matrix (Fin 3) (Fin 3) ℚ :=
  Hpos * (lineJac (if isAtVtxGuess then 0 else lineDS d xyz) * d.covMatrix *
    (lineJac (if isAtVtxGuess then 0 else lineDS d xyz))ᵀ) * Hposᵀ

/-- `void GetMeasurement(const float_v XYZ[], float_v m[], float_v V[],
Bool_t isAtVtxGuess = 0) const` — measurement vector and covariance together. -/
def GetMeasurement (d : PState) (xyz : Fin 3 → ℚ) (isAtVtxGuess : Bool) :
    Matrix (Fin 3) (Fin 1) ℚ × Matrix (Fin 3) (Fin 3) ℚ :=
  (measZ d xyz isAtVtxGuess, measV d xyz isAtVtxGuess)

/-- Modelled from the spec (§4.3 `AddDaughter(d)`): if the mother is empty it
is seeded directly from the transported daughter with chi2 = 0 and the seed
ndf convention (spec §9 leaves the literal open; this model fixes seed = −3
plus 2 for the seeding daughter's two transverse constraints, i.e. −1, and
+2 per further daughter, giving ndf = 2N − 3 after N daughters); otherwise
one linear Kalman update with the daughter's transported spatial measurement.
In both branches the daughter's id is appended and charge and mass-sum
accumulate; the daughter itself (const reference in the header) is read only. -/
def AddDaughter (m d : PState) (isAtVtxGuess : Bool) : PState :=
  if m.NDaughters = 0 then
    let J := lineJac (if isAtVtxGuess then 0 else lineDS d m.fVtxGuess)
    { m with
      fP := fun i => (J * colVec d.fP) i 0
      fC := writeTri (J * d.covMatrix * Jᵀ)
      fChi2 := 0
      fNDF := -1
      fQ := m.fQ + d.fQ
      SumDaughterMass := m.SumDaughterMass + d.fMassHypo
      fDaughterIds := m.fDaughterIds.push d.fId }
  else
    let k2 := kalmanAdd Hpos (measZ d m.fVtxGuess isAtVtxGuess)
      (measV d m.fVtxGuess isAtVtxGuess) 2 (toKal m)
    { m with
      fP := fun i => k2.r i 0
      fC := writeTri k2.C
      fChi2 := k2.chi2
      fNDF := k2.ndf
      fQ := m.fQ + d.fQ
      SumDaughterMass := m.SumDaughterMass + d.fMassHypo
      fDaughterIds := m.fDaughterIds.push d.fId }

/-- `void operator+=(const KFParticleBaseSIMD &Daughter)`; spec §4.3: "`+=`
is sugar for `AddDaughter` with default mode" — the header declares the
default argument `isAtVtxGuess = 0`. -/
def plusAssign (m d : PState) : PState := AddDaughter m d false

/-- The effect of the `AddDaughter` call on the (mother, daughter) pair of
objects: the mother is updated in place, the daughter is passed by const
reference and never written. -/
def AddDaughterPair (md : PState × PState) (isAtVtxGuess : Bool) :
    PState × PState :=
  (AddDaughter md.1 md.2 isAtVtxGuess, md.2)

/-- Modelled from the spec (§4.3 `SubtractFromVertex`): removes a previously
added daughter's contribution from the vertex state, covariance, chi2 and
ndf by recomputing the same gain/innovation with inverted information
contribution.  Called on the daughter `d`, mutating the vertex `v`. -/
def SubtractFromVertex (d : PState) (v : PState) : PState :=
  let k2 := kalmanSubtract Hpos (measZ d v.fVtxGuess false)
    (measV d v.fVtxGuess false) 2 (toKal v)
  { v with
    fP := fun i => k2.r i 0
    fC := writeTri k2.C
    fChi2 := k2.chi2
    fNDF := k2.ndf }

/-! ### Bridge lemmas between the particle state and the Kalman fragment -/

theorem covMatrix_transpose (s : PState) : s.covMatrixᵀ = s.covMatrix :=
  covMatrixOf_transpose s.fC

theorem toKal_C (s : PState) : (toKal s).C = s.covMatrix := rfl

theorem toKal_C_transpose (s : PState) : (toKal s).Cᵀ = (toKal s).C :=
  covMatrixOf_transpose s.fC

theorem measV_transpose (d : PState) (xyz : Fin 3 → ℚ) (b : Bool) :
    (measV d xyz b)ᵀ = measV d xyz b := by
  simp only [measV, Matrix.transpose_mul, Matrix.transpose_transpose,
    covMatrix_transpose, Matrix.mul_assoc]

theorem colVec_entries (M : Matrix (Fin 8) (Fin 1) ℚ) :
    colVec (fun i => M i 0) = M := by
  ext i j
  have hj : j = 0 := Subsingleton.elim j 0
  rw [hj]
  rfl

theorem addDaughter_guess (m d : PState) (b : Bool) :
    (AddDaughter m d b).fVtxGuess = m.fVtxGuess := by
  unfold AddDaughter
  split <;> rfl

theorem addDaughter_NDaughters (m d : PState) (b : Bool) :
    (AddDaughter m d b).NDaughters = m.NDaughters + 1 := by
  unfold AddDaughter
  split <;> simp [PState.NDaughters, IntVec.push]

theorem addDaughter_fP (m d : PState) (b : Bool) (hne : ¬ m.NDaughters = 0) :
    (AddDaughter m d b).fP = fun i =>
      (kalmanAdd Hpos (measZ d m.fVtxGuess b) (measV d m.fVtxGuess b) 2
        (toKal m)).r i 0 := by
  unfold AddDaughter
  rw [if_neg hne]

theorem addDaughter_fC (m d : PState) (b : Bool) (hne : ¬ m.NDaughters = 0) :
    (AddDaughter m d b).fC =
      writeTri (kalmanAdd Hpos (measZ d m.fVtxGuess b)
        (measV d m.fVtxGuess b) 2 (toKal m)).C := by
  unfold AddDaughter
  rw [if_neg hne]

theorem addDaughter_fChi2 (m d : PState) (b : Bool) (hne : ¬ m.NDaughters = 0) :
    (AddDaughter m d b).fChi2 =
      (kalmanAdd Hpos (measZ d m.fVtxGuess b)
        (measV d m.fVtxGuess b) 2 (toKal m)).chi2 := by
  unfold AddDaughter
  rw [if_neg hne]

theorem addDaughter_fNDF (m d : PState) (b : Bool) (hne : ¬ m.NDaughters = 0) :
    (AddDaughter m d b).fNDF =
      (kalmanAdd Hpos (measZ d m.fVtxGuess b)
        (measV d m.fVtxGuess b) 2 (toKal m)).ndf := by
  unfold AddDaughter
  rw [if_neg hne]

theorem addDaughter_toKal (m d : PState) (b : Bool) (hne : ¬ m.NDaughters = 0) :
    toKal (AddDaughter m d b) =
      kalmanAdd Hpos (measZ d m.fVtxGuess b) (measV d m.fVtxGuess b) 2
        (toKal m) := by
  refine KalState.ext ?_ ?_ ?_ ?_
  · rw [show (toKal (AddDaughter m d b)).r = colVec (AddDaughter m d b).fP from rfl,
      addDaughter_fP m d b hne]
    exact colVec_entries _
  · rw [show (toKal (AddDaughter m d b)).C = covMatrixOf (AddDaughter m d b).fC from rfl,
      addDaughter_fC m d b hne]
    exact covMatrixOf_writeTri
      (kalmanAdd_C_transpose Hpos (measZ d m.fVtxGuess b)
        (measV d m.fVtxGuess b) 2 (toKal m) (toKal_C_transpose m)
        (measV_transpose d m.fVtxGuess b))
  · exact addDaughter_fChi2 m d b hne
  · exact addDaughter_fNDF m d b hne

theorem subtractFromVertex_fP (d v : PState) :
    (SubtractFromVertex d v).fP = fun i =>
      (kalmanSubtract Hpos (measZ d v.fVtxGuess false)
        (measV d v.fVtxGuess false) 2 (toKal v)).r i 0 := rfl

theorem subtractFromVertex_fC (d v : PState) :
    (SubtractFromVertex d v).fC =
      writeTri (kalmanSubtract Hpos (measZ d v.fVtxGuess false)
        (measV d v.fVtxGuess false) 2 (toKal v)).C := rfl

theorem subtractFromVertex_fChi2 (d v : PState) :
    (SubtractFromVertex d v).fChi2 =
      (kalmanSubtract Hpos (measZ d v.fVtxGuess false)
        (measV d v.fVtxGuess false) 2 (toKal v)).chi2 := rfl

theorem subtractFromVertex_fNDF (d v : PState) :
    (SubtractFromVertex d v).fNDF =
      (kalmanSubtract Hpos (measZ d v.fVtxGuess false)
        (measV d v.fVtxGuess false) 2 (toKal v)).ndf := rfl

/-- C1: for a mother past the seeding stage, `AddDaughter(d)` followed by
`SubtractFromVertex` with the same daughter `d` restores the mother's
parameter vector, covariance, chi2 and ndf — exactly, in the exact-rational
model (the "floating tolerance" of the claim is the finite-precision shadow
of this identity) — whenever the daughter's measurement covariance and the
innovation covariance are nonsingular, the regularity the gain inversion
needs. -/
theorem claimC1_add_subtract_roundtrip (v d : PState)
    (hne : ¬ v.NDaughters = 0)
    (hV : (measV d v.fVtxGuess false).det ≠ 0)
    (hS : (Hpos * v.covMatrix * Hposᵀ + measV d v.fVtxGuess false).det ≠ 0) :
    (SubtractFromVertex d (AddDaughter v d false)).fP = v.fP ∧
    (SubtractFromVertex d (AddDaughter v d false)).fC = v.fC ∧
    (SubtractFromVertex d (AddDaughter v d false)).fChi2 = v.fChi2 ∧
    (SubtractFromVertex d (AddDaughter v d false)).fNDF = v.fNDF := by
  have hg := addDaughter_guess v d false
  have htk := addDaughter_toKal v d false hne
  have hrt := kalman_roundtrip Hpos (measZ d v.fVtxGuess false)
    (measV d v.fVtxGuess false) 2 (toKal v) (toKal_C_transpose v)
    (measV_transpose d v.fVtxGuess false)
    (isUnit_iff_ne_zero.mpr hS) (isUnit_iff_ne_zero.mpr hV)
  refine ⟨?_, ?_, ?_, ?_⟩
  · rw [subtractFromVertex_fP, hg, htk, hrt]
    rfl
  · rw [subtractFromVertex_fC, hg, htk, hrt]
    exact writeTri_covMatrixOf v.fC
  · rw [subtractFromVertex_fChi2, hg, htk, hrt]
    rfl
  · rw [subtractFromVertex_fNDF, hg, htk, hrt]
    rfl

set_option maxRecDepth 4000 in
/-- C2: adding two daughters to a non-seed mother in either order produces
the same parameter vector, covariance and chi2 — exactly, in the
exact-rational model — under the nonsingularity conditions of the four
innovation covariances, the two measurement covariances and the prior. -/
theorem claimC2_addDaughter_comm (v d1 d2 : PState)
    (hne : ¬ v.NDaughters = 0)
    (hC : v.covMatrix.det ≠ 0)
    (hV1 : (measV d1 v.fVtxGuess false).det ≠ 0)
    (hV2 : (measV d2 v.fVtxGuess false).det ≠ 0)
    (hS1 : (Hpos * v.covMatrix * Hposᵀ + measV d1 v.fVtxGuess false).det ≠ 0)
    (hS2 : (Hpos * v.covMatrix * Hposᵀ + measV d2 v.fVtxGuess false).det ≠ 0)
    (hS21 : (Hpos * (AddDaughter v d1 false).covMatrix * Hposᵀ +
      measV d2 v.fVtxGuess false).det ≠ 0)
    (hS12 : (Hpos * (AddDaughter v d2 false).covMatrix * Hposᵀ +
      measV d1 v.fVtxGuess false).det ≠ 0) :
    (AddDaughter (AddDaughter v d1 false) d2 false).fP =
      (AddDaughter (AddDaughter v d2 false) d1 false).fP ∧
    (AddDaughter (AddDaughter v d1 false) d2 false).fC =
      (AddDaughter (AddDaughter v d2 false) d1 false).fC ∧
    (AddDaughter (AddDaughter v d1 false) d2 false).fChi2 =
      (AddDaughter (AddDaughter v d2 false) d1 false).fChi2 := by
  have hne1 : ¬ (AddDaughter v d1 false).NDaughters = 0 := by
    rw [addDaughter_NDaughters]
    omega
  have hne2 : ¬ (AddDaughter v d2 false).NDaughters = 0 := by
    rw [addDaughter_NDaughters]
    omega
  have hg1 := addDaughter_guess v d1 false
  have hg2 := addDaughter_guess v d2 false
  have htk1 := addDaughter_toKal v d1 false hne
  have htk2 := addDaughter_toKal v d2 false hne
  have hS21k : IsUnit (Hpos * (kalmanAdd Hpos (measZ d1 v.fVtxGuess false)
      (measV d1 v.fVtxGuess false) 2 (toKal v)).C * Hposᵀ +
      measV d2 v.fVtxGuess false).det := by
    rw [← congrArg KalState.C htk1]
    exact isUnit_iff_ne_zero.mpr hS21
  have hS12k : IsUnit (Hpos * (kalmanAdd Hpos (measZ d2 v.fVtxGuess false)
      (measV d2 v.fVtxGuess false) 2 (toKal v)).C * Hposᵀ +
      measV d1 v.fVtxGuess false).det := by
    rw [← congrArg KalState.C htk2]
    exact isUnit_iff_ne_zero.mpr hS12
  have hCk : IsUnit (toKal v).C.det := by
    rw [toKal_C]
    exact isUnit_iff_ne_zero.mpr hC
  have hV1k : IsUnit (measV d1 v.fVtxGuess false).det := isUnit_iff_ne_zero.mpr hV1
  have hV2k : IsUnit (measV d2 v.fVtxGuess false).det := isUnit_iff_ne_zero.mpr hV2
  have hS1k : IsUnit (Hpos * (toKal v).C * Hposᵀ +
      measV d1 v.fVtxGuess false).det := by
    rw [toKal_C]
    exact isUnit_iff_ne_zero.mpr hS1
  have hS2k : IsUnit (Hpos * (toKal v).C * Hposᵀ +
      measV d2 v.fVtxGuess false).det := by
    rw [toKal_C]
    exact isUnit_iff_ne_zero.mpr hS2
  have hcomm := kalmanAdd_comm Hpos (measZ d1 v.fVtxGuess false)
    (measV d1 v.fVtxGuess false) 2 Hpos (measZ d2 v.fVtxGuess false)
    (measV d2 v.fVtxGuess false) 2 (toKal v) (toKal_C_transpose v)
    (measV_transpose d1 v.fVtxGuess false) (measV_transpose d2 v.fVtxGuess false)
    hCk hV1k hV2k hS1k hS2k hS21k hS12k
  refine ⟨?_, ?_, ?_⟩
  · rw [addDaughter_fP _ d2 false hne1, addDaughter_fP _ d1 false hne2,
      hg1, hg2, htk1, htk2, hcomm]
  · rw [addDaughter_fC _ d2 false hne1, addDaughter_fC _ d1 false hne2,
      hg1, hg2, htk1, htk2, hcomm]
  · rw [addDaughter_fChi2 _ d2 false hne1, addDaughter_fChi2 _ d1 false hne2,
      hg1, hg2, htk1, htk2, hcomm]

/-! ### Mass constraint (ConstraintSolver) -/

/-- The squared invariant mass computed from (px, py, pz, E) — the quantity
`GetMass` reports the square root of. -/
def massSq (P : Fin 8 → ℚ) : ℚ := P 6 ^ 2 - (P 3 ^ 2 + P 4 ^ 2 + P 5 ^ 2)

/-- The analytic Jacobian of the squared mass with respect to the state
parameters (nonzero only on the momentum/energy components). -/
def massJ (P : Fin 8 → ℚ) : Fin 8 → ℚ := fun i =>
  if i = 3 then -2 * P 3 else if i = 4 then -2 * P 4
  else if i = 5 then -2 * P 5 else if i = 6 then 2 * P 6 else 0

/-- Modelled from the spec (§4.4): `SetMassConstraint(mass, sigmaMass = 0)` —
one linear Kalman step forcing the invariant mass computed from
(px,py,pz,E) toward `mass`, using the analytic Jacobian of the mass with
respect to the momentum/energy parameters; sigmaMass = 0 is a hard
constraint, sigmaMass > 0 a soft one (entering the innovation variance as
the width of the squared-mass measurement, (2·mass·sigmaMass)²); updates
P, C, chi2 (+), ndf (+1). -/
def SetMassConstraint (mass sigmaMass : ℚ) (s : PState) : PState :=
  let C := s.covMatrix
  let J := massJ s.fP
  let CJ := C.mulVec J
  let S := J ⬝ᵥ CJ + (2 * mass * sigmaMass) ^ 2
  let res := mass ^ 2 - massSq s.fP
  { s with
    fP := fun i => s.fP i + CJ i * (res / S)
    fC := writeTri (Matrix.of fun i j => C i j - CJ i * CJ j / S)
    fChi2 := s.fChi2 + res ^ 2 / S
    fNDF := s.fNDF + 1 }

/-- Modelled from the spec (§4.4): `SetNonlinearMassConstraint(mass)` repeats
the linear step for a fixed small number of iterations (three here),
recomputing the Jacobian at the updated state each time. -/
def SetNonlinearMassConstraint (mass : ℚ) (s : PState) : PState :=
  (fun t => SetMassConstraint mass 0 t)^[3] s

/-! ### Derived observables (§4.5)

Each accessor computes value = f(P) and variance = gradfᵗ·C·gradf and signals
failure through a returned flag: flag set exactly when the propagated
variance would be negative or a required denominator is at or below the
numerical floor.  Values whose physical definition involves a square root or
a transcendental function are recorded through their rational core (the
squared value, or the squared argument), since the flag logic and the
variance propagation — the content under test — are rational. -/

/-- The numerical floor guarding denominators. -/
def epsF : ℚ := 1 / 100000000

/-- Result of a derived-observable accessor: the failure flag (`0 means no
error` per the header comment), the squared value and the squared
propagated sigma, both best-effort when the flag is set. -/
structure DerivedQty where
  fail : Bool
  value2 : ℚ
  sigma2 : ℚ

/-- The quadratic form gradᵗ·C·grad propagating the covariance onto a
derived quantity. -/
def gradVar (s : PState) (g : Fin 8 → ℚ) : ℚ := g ⬝ᵥ s.covMatrix.mulVec g

def momP2 (s : PState) : ℚ := s.fP 3 ^ 2 + s.fP 4 ^ 2 + s.fP 5 ^ 2

def momGrad (s : PState) : Fin 8 → ℚ := fun i =>
  if i = 3 then s.fP 3 else if i = 4 then s.fP 4
  else if i = 5 then s.fP 5 else 0

/-- Modelled from the spec (§4.5): momentum magnitude p = √(px²+py²+pz²),
σ_p² = (p grad)ᵗC(p grad)/p². -/
def PState.GetMomentum (s : PState) : DerivedQty :=
  { fail := decide (gradVar s (momGrad s) < 0) || decide (momP2 s ≤ epsF)
    value2 := momP2 s
    sigma2 := gradVar s (momGrad s) / momP2 s }

def ptP2 (s : PState) : ℚ := s.fP 3 ^ 2 + s.fP 4 ^ 2

def ptGrad (s : PState) : Fin 8 → ℚ := fun i =>
  if i = 3 then s.fP 3 else if i = 4 then s.fP 4 else 0

/-- Modelled from the spec (§4.5): transverse momentum. -/
def PState.GetPt (s : PState) : DerivedQty :=
  { fail := decide (gradVar s (ptGrad s) < 0) || decide (ptP2 s ≤ epsF)
    value2 := ptP2 s
    sigma2 := gradVar s (ptGrad s) / ptP2 s }

def etaGrad (s : PState) : Fin 8 → ℚ := fun i =>
  if i = 3 then -(s.fP 3 * s.fP 5) else if i = 4 then -(s.fP 4 * s.fP 5)
  else if i = 5 then ptP2 s else 0

/-- Modelled from the spec (§4.5): pseudorapidity η = atanh(pz/p); the
failure denominator is the momentum magnitude; the gradient is recorded
through its rational numerator vector, variance scaled by 1/(p²·pt⁴). -/
def PState.GetEta (s : PState) : DerivedQty :=
  { fail := decide (gradVar s (etaGrad s) < 0) || decide (momP2 s ≤ epsF)
    value2 := s.fP 5 ^ 2 / momP2 s
    sigma2 := gradVar s (etaGrad s) / (momP2 s * ptP2 s ^ 2) }

def phiGrad (s : PState) : Fin 8 → ℚ := fun i =>
  if i = 3 then -(s.fP 4) else if i = 4 then s.fP 3 else 0

/-- Modelled from the spec (§4.5): azimuth φ = atan2(py, px); the failure
denominator is the transverse momentum; the value is recorded through its
rational core tan φ = py/px. -/
def PState.GetPhi (s : PState) : DerivedQty :=
  { fail := decide (gradVar s (phiGrad s) < 0) || decide (ptP2 s ≤ epsF)
    value2 := s.fP 4 ^ 2 / s.fP 3 ^ 2
    sigma2 := gradVar s (phiGrad s) / ptP2 s ^ 2 }

/-- Modelled from the spec (§4.5): invariant mass m = √(E²−p²), with
σ_m² = JᵗCJ/(4m²) for the squared-mass Jacobian J; the failure denominator
is the mass itself. -/
def PState.GetMass (s : PState) : DerivedQty :=
  { fail := decide (gradVar s (massJ s.fP) < 0) || decide (massSq s.fP ≤ epsF)
    value2 := massSq s.fP
    sigma2 := gradVar s (massJ s.fP) / (4 * massSq s.fP) }

def dlGrad (s : PState) : Fin 8 → ℚ := fun i =>
  if i = 3 then s.fP 7 * s.fP 3 else if i = 4 then s.fP 7 * s.fP 4
  else if i = 5 then s.fP 7 * s.fP 5 else if i = 7 then momP2 s else 0

/-- Modelled from the spec (§4.5): decay length l = S·p (S = path/momentum
is the 8th parameter); the failure denominator is the momentum. -/
def PState.GetDecayLength (s : PState) : DerivedQty :=
  { fail := decide (gradVar s (dlGrad s) < 0) || decide (momP2 s ≤ epsF)
    value2 := s.fP 7 ^ 2 * momP2 s
    sigma2 := gradVar s (dlGrad s) / momP2 s }

def dlxyGrad (s : PState) : Fin 8 → ℚ := fun i =>
  if i = 3 then s.fP 7 * s.fP 3 else if i = 4 then s.fP 7 * s.fP 4
  else if i = 7 then ptP2 s else 0

/-- Modelled from the spec (§4.5): transverse decay length l_xy = S·pt. -/
def PState.GetDecayLengthXY (s : PState) : DerivedQty :=
  { fail := decide (gradVar s (dlxyGrad s) < 0) || decide (ptP2 s ≤ epsF)
    value2 := s.fP 7 ^ 2 * ptP2 s
    sigma2 := gradVar s (dlxyGrad s) / ptP2 s }

def ltGrad (s : PState) : Fin 8 → ℚ := fun i =>
  s.fP 7 * massJ s.fP i + (if i = 7 then 2 * massSq s.fP else 0)

/-- Modelled from the spec (§4.5): proper lifetime T = S·m; the failure
denominator is the mass. -/
def PState.GetLifeTime (s : PState) : DerivedQty :=
  { fail := decide (gradVar s (ltGrad s) < 0) || decide (massSq s.fP ≤ epsF)
    value2 := s.fP 7 ^ 2 * massSq s.fP
    sigma2 := gradVar s (ltGrad s) / (4 * massSq s.fP) }

def rGrad (s : PState) : Fin 8 → ℚ := fun i =>
  if i = 0 then s.fP 0 else if i = 1 then s.fP 1 else 0

def rR2 (s : PState) : ℚ := s.fP 0 ^ 2 + s.fP 1 ^ 2

/-- Modelled from the spec (§4.5): radial distance R = √(x²+y²). -/
def PState.GetR (s : PState) : DerivedQty :=
  { fail := decide (gradVar s (rGrad s) < 0) || decide (rR2 s ≤ epsF)
    value2 := rR2 s
    sigma2 := gradVar s (rGrad s) / rR2 s }

/-! ### Bounded Newton iteration (IntersectionSolver liveness) -/

/-- A fuel-bounded iteration: applies `step` until `conv` holds or the fuel
is exhausted, and reports the last iterate together with the number of steps
actually taken. -/
def newtonLoop (step : ℚ → ℚ) (conv : ℚ → Bool) : ℕ → ℚ → ℚ × ℕ
  | 0, x => (x, 0)
  | n + 1, x =>
    if conv x then (x, 0)
    else
      let r := newtonLoop step conv n (step x)
      (r.1, r.2 + 1)

/-- Modelled from the spec (§4.2, §7): `GetDStoPointCBM` — the general-field
closest-approach search is a Newton iteration on the transport parameter,
capped at 100 steps, returning the last iterate on non-convergence.  The
Newton step and the convergence test depend on the injected field model and
are abstracted as function parameters. -/
def GetDStoPointCBM (step : ℚ → ℚ) (conv : ℚ → Bool) (s0 : ℚ) : ℚ × ℕ :=
  newtonLoop step conv 100 s0

theorem newtonLoop_count_le (step : ℚ → ℚ) (conv : ℚ → Bool) :
    ∀ (fuel : ℕ) (x : ℚ), (newtonLoop step conv fuel x).2 ≤ fuel := by
  intro fuel
  induction fuel with
  | zero => intro x; simp [newtonLoop]
  | succ n ih =>
    intro x
    rw [newtonLoop]
    split
    · simp
    · simpa using ih (step x)

theorem newtonLoop_last (step : ℚ → ℚ) (conv : ℚ → Bool)
    (hnc : ∀ x, conv x = false) :
    ∀ (fuel : ℕ) (x : ℚ), (newtonLoop step conv fuel x).1 = step^[fuel] x := by
  intro fuel
  induction fuel with
  | zero => intro x; simp [newtonLoop]
  | succ n ih =>
    intro x
    rw [newtonLoop, hnc x]
    simpa [Function.iterate_succ_apply] using ih (step x)

/-! ### Claim theorems -/

/-- C4: the covariance is symmetric after every operation by construction of
the triangular storage: for all indices 0 ≤ i, j ≤ 7, `GetCovariance(i, j)`
equals `GetCovariance(j, i)`, because both read `fC[IJ(i,j)]` and
`IJ(i,j) = IJ(j,i)`. -/
theorem claimC4_covariance_symmetric :
    ∀ (s : PState) (i j : Fin 8), s.GetCovariance i j = s.GetCovariance j i := by
  intro s i j
  unfold PState.GetCovariance
  rw [IJf_comm]

/-- C9 (implicit): for all indices 0 ≤ i, j ≤ 7 the triangular index
`IJ(i, j)` lies in 0..35, so every covariance access through
`GetCovariance(i,j)` / `Covariance(i,j)` / `Cij(i,j)` stays within the
36-entry array `fC`. -/
theorem claimC9_IJ_within_bounds : ∀ i j : Fin 8, IJ i.val j.val < 36 := by
  decide

/-- C6: `mother += d` has exactly the same effect on the mother as
`mother.AddDaughter(d)` called with the default mode argument
(`isAtVtxGuess = 0` in the header). -/
theorem claimC6_plusAssign_is_addDaughter :
    ∀ m d : PState, plusAssign m d = AddDaughter m d false :=
  fun _ _ => rfl

/-- C7: `AddDaughter(d)` appends `d`'s id to the mother's daughter-id list —
the count grows by one and the last stored id is `d`'s — and the daughter
object itself (const reference in the header) is entirely unchanged. -/
theorem claimC7_addDaughter_appends_id :
    ∀ (m d : PState) (b : Bool),
      (AddDaughter m d b).NDaughters = m.NDaughters + 1 ∧
      (AddDaughter m d b).fDaughterIds.data.getLast? = some d.fId ∧
      (AddDaughterPair (m, d) b).2 = d := by
  intro m d b
  refine ⟨addDaughter_NDaughters m d b, ?_, rfl⟩
  unfold AddDaughter
  split <;> simp [IntVec.push]

/-- C10 (implicit): `SetNDaughters(n)` only reserves storage capacity — the
observable daughter list (count and every stored id) is identical before and
after the call; only the capacity changes. -/
theorem claimC10_setNDaughters_only_reserves :
    ∀ (st : PState) (n : ℕ),
      (st.SetNDaughters n).fDaughterIds.data = st.fDaughterIds.data ∧
      (st.SetNDaughters n).NDaughters = st.NDaughters ∧
      (∀ iD : ℕ, (st.SetNDaughters n).GetDaughterId iD = st.GetDaughterId iD) ∧
      (st.SetNDaughters n).fDaughterIds.cap = max st.fDaughterIds.cap n :=
  fun _ _ => ⟨rfl, rfl, fun _ => rfl, rfl⟩

/-- C5: every derived-observable accessor returns a failure flag (a value,
not an exception — each accessor is a total function into `DerivedQty`), and
the flag is set exactly when the propagated variance is negative or the
accessor's denominator is at or below the numerical floor; the numeric
outputs are still produced, best-effort, in both cases. -/
theorem claimC5_observable_failure_flags :
    ∀ s : PState,
      ((s.GetMomentum).fail = true ↔ gradVar s (momGrad s) < 0 ∨ momP2 s ≤ epsF) ∧
      ((s.GetPt).fail = true ↔ gradVar s (ptGrad s) < 0 ∨ ptP2 s ≤ epsF) ∧
      ((s.GetEta).fail = true ↔ gradVar s (etaGrad s) < 0 ∨ momP2 s ≤ epsF) ∧
      ((s.GetPhi).fail = true ↔ gradVar s (phiGrad s) < 0 ∨ ptP2 s ≤ epsF) ∧
      ((s.GetMass).fail = true ↔ gradVar s (massJ s.fP) < 0 ∨ massSq s.fP ≤ epsF) ∧
      ((s.GetDecayLength).fail = true ↔ gradVar s (dlGrad s) < 0 ∨ momP2 s ≤ epsF) ∧
      ((s.GetDecayLengthXY).fail = true ↔ gradVar s (dlxyGrad s) < 0 ∨ ptP2 s ≤ epsF) ∧
      ((s.GetLifeTime).fail = true ↔ gradVar s (ltGrad s) < 0 ∨ massSq s.fP ≤ epsF) ∧
      ((s.GetR).fail = true ↔ gradVar s (rGrad s) < 0 ∨ rR2 s ≤ epsF) := by
  intro s
  refine ⟨?_, ?_, ?_, ?_, ?_, ?_, ?_, ?_, ?_⟩ <;>
    simp [PState.GetMomentum, PState.GetPt, PState.GetEta, PState.GetPhi,
      PState.GetMass, PState.GetDecayLength, PState.GetDecayLengthXY,
      PState.GetLifeTime, PState.GetR, Bool.or_eq_true, decide_eq_true_eq]

/-- C8: the iterative solvers terminate on every input — the general-field
closest-approach search caps its Newton iteration count at 100 and returns
the 100th (last) iterate when the convergence test never fires, and the
nonlinear mass constraint performs exactly its fixed small number (three) of
linear mass-constraint steps. -/
theorem claimC8_iterative_solvers_terminate :
    ∀ (step : ℚ → ℚ) (conv : ℚ → Bool) (s0 : ℚ),
      (GetDStoPointCBM step conv s0).2 ≤ 100 ∧
      ((∀ x, conv x = false) →
        (GetDStoPointCBM step conv s0).1 = step^[100] s0) ∧
      (∀ (mass : ℚ) (st : PState),
        SetNonlinearMassConstraint mass st =
          (fun t => SetMassConstraint mass 0 t)^[3] st) := by
  intro step conv s0
  exact ⟨newtonLoop_count_le step conv 100 s0,
    fun h => newtonLoop_last step conv h 100 s0, fun _ _ => rfl⟩

/-- A dot product against a pointwise right-scaled vector factors out. -/
theorem dot_mul_right (J CJ : Fin 8 → ℚ) (c : ℚ) :
    J ⬝ᵥ (fun i => CJ i * c) = (J ⬝ᵥ CJ) * c := by
  simp only [dotProduct, Finset.sum_mul, mul_assoc]

/-- C3 (amended): `SetMassConstraint(m, 0)` drives the linearized squared
mass exactly to m² — massSq(P) plus the Jacobian times the parameter shift
equals m² — while the exact nonlinear mass moves to m only up to a
second-order remainder (the counterexample shows it can land far away);
chi2 grows by the nonnegative residual term and ndf by exactly 1. -/
theorem claimC3_mass_constraint_linear (s : PState) (mass : ℚ)
    (hq : 0 < massJ s.fP ⬝ᵥ s.covMatrix.mulVec (massJ s.fP)) :
    massSq s.fP + massJ s.fP ⬝ᵥ
        (fun i => (SetMassConstraint mass 0 s).fP i - s.fP i) = mass ^ 2 ∧
    s.fChi2 ≤ (SetMassConstraint mass 0 s).fChi2 ∧
    (SetMassConstraint mass 0 s).fNDF = s.fNDF + 1 := by
  have hq0 : massJ s.fP ⬝ᵥ s.covMatrix.mulVec (massJ s.fP) ≠ 0 := ne_of_gt hq
  have hS : massJ s.fP ⬝ᵥ s.covMatrix.mulVec (massJ s.fP) + (2 * mass * 0) ^ 2 =
      massJ s.fP ⬝ᵥ s.covMatrix.mulVec (massJ s.fP) := by ring
  refine ⟨?_, ?_, rfl⟩
  · show massSq s.fP + massJ s.fP ⬝ᵥ
        (fun i => (s.fP i + s.covMatrix.mulVec (massJ s.fP) i *
          ((mass ^ 2 - massSq s.fP) /
            (massJ s.fP ⬝ᵥ s.covMatrix.mulVec (massJ s.fP) +
              (2 * mass * 0) ^ 2))) - s.fP i) = mass ^ 2
    simp only [hS, add_sub_cancel_left]
    rw [dot_mul_right]
    field_simp
  · show s.fChi2 ≤ s.fChi2 + (mass ^ 2 - massSq s.fP) ^ 2 /
      (massJ s.fP ⬝ᵥ s.covMatrix.mulVec (massJ s.fP) + (2 * mass * 0) ^ 2)
    rw [hS]
    have : 0 ≤ (mass ^ 2 - massSq s.fP) ^ 2 /
        (massJ s.fP ⬝ᵥ s.covMatrix.mulVec (massJ s.fP)) :=
      div_nonneg (sq_nonneg _) hq.le
    linarith

/-! ### Concrete instances -/

/-- A vertex state: origin, unit covariance, one daughter already attached. -/
def exV : PState :=
  ⟨fun _ => 0, writeTri 1, 0, 0, 0, fun _ => 0, 0, 0, 1, ⟨[7], 1⟩, 0⟩

/-- A daughter at the origin with zero momentum and unit covariance. -/
def exD : PState :=
  ⟨fun _ => 0, writeTri 1, 0, 0, 0, fun _ => 0, 0, 0, 5, ⟨[], 0⟩, 0⟩

/-- A particle with (px,py,pz,E) = (0,0,0,1) and unit covariance. -/
def exM : PState :=
  ⟨fun i => if i = 6 then 1 else 0, writeTri 1, 0, 0, 0, fun _ => 0, 0, 0, 0,
    ⟨[], 0⟩, 0⟩

theorem exV_cov : exV.covMatrix = 1 := covMatrixOf_writeTri Matrix.transpose_one

theorem exD_cov : exD.covMatrix = 1 := covMatrixOf_writeTri Matrix.transpose_one

theorem exM_cov : exM.covMatrix = 1 := covMatrixOf_writeTri Matrix.transpose_one

theorem exV_ndaughters : ¬ exV.NDaughters = 0 := by decide

theorem Hpos_mul_transpose : Hpos * Hposᵀ = 1 := by
  ext i j
  fin_cases i <;> fin_cases j <;>
    simp +decide [Hpos, Matrix.mul_apply, Fin.sum_univ_eight, Matrix.one_apply,
      Matrix.transpose_apply]

theorem Hpos_sandwich : Hpos * (Hposᵀ * Hpos) * Hposᵀ = 1 := by
  rw [← Matrix.mul_assoc Hpos Hposᵀ Hpos, Matrix.mul_assoc (Hpos * Hposᵀ),
    Hpos_mul_transpose, Matrix.one_mul]

theorem Smat_one : Hpos * (1 : Matrix (Fin 8) (Fin 8) ℚ) * Hposᵀ + 1 =
    (2 : ℚ) • 1 := by
  ext i j
  fin_cases i <;> fin_cases j <;>
    simp +decide [Hpos, Matrix.mul_apply, Fin.sum_univ_eight, Matrix.one_apply,
      Matrix.transpose_apply, Matrix.add_apply, Matrix.smul_apply] <;>
    norm_num

theorem lineJac_zero : lineJac 0 = 1 := by
  ext i j
  by_cases h : j = i
  · subst h
    simp [lineJac, Matrix.one_apply]
  · simp [lineJac, h, Matrix.one_apply, Ne.symm h]

theorem exD_lineDS (xyz : Fin 3 → ℚ) : lineDS exD xyz = 0 := by
  simp [lineDS, exD]

theorem ex_measV : measV exD exV.fVtxGuess false = 1 := by
  simp only [measV, Bool.false_eq_true, if_false, exD_lineDS, lineJac_zero,
    exD_cov, Matrix.transpose_one, Matrix.mul_one, Matrix.one_mul]
  exact Hpos_mul_transpose

theorem invQ_smul_one {k : ℕ} (a : ℚ) (ha : a ≠ 0) :
    invQ (a • (1 : Matrix (Fin k) (Fin k) ℚ)) = a⁻¹ • 1 :=
  invQ_eq_of_mul_eq_one (by
    rw [Matrix.smul_mul, Matrix.mul_smul, Matrix.one_mul, smul_smul,
      mul_inv_cancel₀ ha, one_smul])

/-- Witness for C1 at the concrete vertex and daughter. -/
theorem claimC1_witness :
    (¬ exV.NDaughters = 0) ∧
    (measV exD exV.fVtxGuess false).det ≠ 0 ∧
    (Hpos * exV.covMatrix * Hposᵀ + measV exD exV.fVtxGuess false).det ≠ 0 ∧
    ((SubtractFromVertex exD (AddDaughter exV exD false)).fP = exV.fP ∧
     (SubtractFromVertex exD (AddDaughter exV exD false)).fC = exV.fC ∧
     (SubtractFromVertex exD (AddDaughter exV exD false)).fChi2 = exV.fChi2 ∧
     (SubtractFromVertex exD (AddDaughter exV exD false)).fNDF = exV.fNDF) := by
  have h1 : ¬ exV.NDaughters = 0 := exV_ndaughters
  have h2 : (measV exD exV.fVtxGuess false).det ≠ 0 := by
    rw [ex_measV, Matrix.det_one]
    norm_num
  have h3 : (Hpos * exV.covMatrix * Hposᵀ + measV exD exV.fVtxGuess false).det ≠ 0 := by
    rw [ex_measV, exV_cov, Smat_one, Matrix.det_smul, Matrix.det_one]
    norm_num
  exact ⟨h1, h2, h3, claimC1_add_subtract_roundtrip exV exD h1 h2 h3⟩

theorem exAdd_cov : (AddDaughter exV exD false).covMatrix =
    1 - (2⁻¹ : ℚ) • (Hposᵀ * Hpos) := by
  rw [← toKal_C, addDaughter_toKal exV exD false exV_ndaughters, kalmanAdd_C,
    toKal_C, exV_cov, ex_measV, Smat_one, invQ_smul_one 2 (by norm_num)]
  simp [Matrix.one_mul, Matrix.mul_one, Matrix.mul_smul, Matrix.smul_mul]

theorem exAdd_Smat : Hpos * (AddDaughter exV exD false).covMatrix * Hposᵀ +
    measV exD exV.fVtxGuess false = (3 / 2 : ℚ) • 1 := by
  rw [exAdd_cov, ex_measV, Matrix.mul_sub, Matrix.sub_mul, Matrix.mul_one,
    Hpos_mul_transpose, Matrix.mul_smul, Matrix.smul_mul, Hpos_sandwich]
  ext i j
  by_cases h : i = j <;>
    simp [h, Matrix.sub_apply, Matrix.add_apply, Matrix.smul_apply,
      Matrix.one_apply]
  norm_num

/-- Witness for C2 at the concrete vertex and daughters. -/
theorem claimC2_witness :
    (¬ exV.NDaughters = 0) ∧
    exV.covMatrix.det ≠ 0 ∧
    (measV exD exV.fVtxGuess false).det ≠ 0 ∧
    (Hpos * exV.covMatrix * Hposᵀ + measV exD exV.fVtxGuess false).det ≠ 0 ∧
    (Hpos * (AddDaughter exV exD false).covMatrix * Hposᵀ +
      measV exD exV.fVtxGuess false).det ≠ 0 ∧
    ((AddDaughter (AddDaughter exV exD false) exD false).fP =
      (AddDaughter (AddDaughter exV exD false) exD false).fP ∧
     (AddDaughter (AddDaughter exV exD false) exD false).fC =
      (AddDaughter (AddDaughter exV exD false) exD false).fC ∧
     (AddDaughter (AddDaughter exV exD false) exD false).fChi2 =
      (AddDaughter (AddDaughter exV exD false) exD false).fChi2) := by
  have h1 : ¬ exV.NDaughters = 0 := exV_ndaughters
  have hC : exV.covMatrix.det ≠ 0 := by
    have h : exV.covMatrix * 1 = 1 := by rw [exV_cov, Matrix.one_mul]
    exact IsUnit.ne_zero (Matrix.isUnit_det_of_right_inverse h)
  have h2 : (measV exD exV.fVtxGuess false).det ≠ 0 := by
    rw [ex_measV, Matrix.det_one]
    norm_num
  have h3 : (Hpos * exV.covMatrix * Hposᵀ + measV exD exV.fVtxGuess false).det ≠ 0 := by
    rw [ex_measV, exV_cov, Smat_one, Matrix.det_smul, Matrix.det_one]
    norm_num
  have h4 : (Hpos * (AddDaughter exV exD false).covMatrix * Hposᵀ +
      measV exD exV.fVtxGuess false).det ≠ 0 := by
    rw [exAdd_Smat, Matrix.det_smul, Matrix.det_one]
    norm_num
  exact ⟨h1, hC, h2, h3, h4,
    claimC2_addDaughter_comm exV exD exD h1 hC h2 h2 h3 h3 h4 h4⟩

theorem exM_massJ : massJ exM.fP = fun i => if i = 6 then 2 else 0 := by
  funext i
  fin_cases i <;> simp +decide [massJ, exM]

theorem exM_CJ : exM.covMatrix.mulVec (massJ exM.fP) = massJ exM.fP := by
  rw [exM_cov, Matrix.one_mulVec]

theorem exM_q : massJ exM.fP ⬝ᵥ exM.covMatrix.mulVec (massJ exM.fP) = 4 := by
  rw [exM_CJ, exM_massJ]
  simp +decide [dotProduct, Fin.sum_univ_eight]
  norm_num

theorem exM_massSq : massSq exM.fP = 1 := by
  simp +decide [massSq, exM]

/-- Witness for C3 (the amended linear-step property) at the concrete state. -/
theorem claimC3_witness :
    0 < massJ exM.fP ⬝ᵥ exM.covMatrix.mulVec (massJ exM.fP) ∧
    (massSq exM.fP + massJ exM.fP ⬝ᵥ
        (fun i => (SetMassConstraint 3 0 exM).fP i - exM.fP i) = 3 ^ 2 ∧
     exM.fChi2 ≤ (SetMassConstraint 3 0 exM).fChi2 ∧
     (SetMassConstraint 3 0 exM).fNDF = exM.fNDF + 1) := by
  have hq : 0 < massJ exM.fP ⬝ᵥ exM.covMatrix.mulVec (massJ exM.fP) := by
    rw [exM_q]
    norm_num
  exact ⟨hq, claimC3_mass_constraint_linear exM 3 hq⟩

/-- C3 counterexample: on the state with (px,py,pz,E) = (0,0,0,1) and unit
covariance, `SetMassConstraint(3, 0)` moves the squared invariant mass to
25 — the mass subsequently reported by `GetMass` is √25 = 5, which is not
within 1e-5 (nor any small tolerance) of the constrained value 3, since
(3 + 1e-5)² < 25; chi2 and ndf do increment as claimed (by 16 and by 1). -/
theorem claimC3_counterexample :
    (SetMassConstraint 3 0 exM).GetMass.value2 = 25 ∧
    ((3 : ℚ) + 1 / 100000) ^ 2 < 25 ∧
    (SetMassConstraint 3 0 exM).fChi2 = 16 ∧
    (SetMassConstraint 3 0 exM).fNDF = 1 := by
  have hfP : (SetMassConstraint 3 0 exM).fP = fun i =>
      exM.fP i + exM.covMatrix.mulVec (massJ exM.fP) i *
        ((3 ^ 2 - massSq exM.fP) /
          (massJ exM.fP ⬝ᵥ exM.covMatrix.mulVec (massJ exM.fP) +
            (2 * 3 * 0) ^ 2)) := rfl
  refine ⟨?_, by norm_num, ?_, rfl⟩
  · show massSq ((SetMassConstraint 3 0 exM).fP) = 25
    rw [hfP, exM_q, exM_massSq, exM_CJ, exM_massJ]
    simp +decide [massSq, exM]
    norm_num
  · show exM.fChi2 + (3 ^ 2 - massSq exM.fP) ^ 2 /
        (massJ exM.fP ⬝ᵥ exM.covMatrix.mulVec (massJ exM.fP) +
          (2 * 3 * 0) ^ 2) = 16
    rw [exM_q, exM_massSq]
    show (0 : ℚ) + (3 ^ 2 - 1) ^ 2 / (4 + (2 * 3 * 0) ^ 2) = 16
    norm_num

/-- Witness for C8 with a never-converging test and a concrete constraint. -/
theorem claimC8_witness :
    (GetDStoPointCBM (fun x => x + 1) (fun _ => false) 0).2 ≤ 100 ∧
    (GetDStoPointCBM (fun x => x + 1) (fun _ => false) 0).1 =
      (fun x : ℚ => x + 1)^[100] 0 ∧
    SetNonlinearMassConstraint 3 exM =
      (fun t => SetMassConstraint 3 0 t)^[3] exM := by
  have h := claimC8_iterative_solvers_terminate (fun x => x + 1) (fun _ => false) 0
  exact ⟨h.1, h.2.1 (fun _ => rfl), h.2.2 3 exM⟩

end KFP
